import Mathlib

/-!
Verification of the URI utilities of `pygls` (`pygls/uris.py`).

Python strings are modelled as `List Char` (abbreviated `Str`); Python
exceptions as the `PyErr` inductive, and fallible code returns
`Except PyErr α`.  The parts of the Python standard library that
`pygls/uris.py` relies on (`urllib.parse.quote`, `urllib.parse.unquote`,
`urllib.parse.urlparse` / `urlsplit` / `urlunparse`, and the POSIX
`os.path.join` / `os.path.normpath`) are embedded from their CPython
sources.  The process-wide `pygls.IS_WIN` flag is passed explicitly as a
`Bool` argument to every function that reads it.

Stated approximations (marked again at the definitions):
* Unicode-only behaviour is modelled at the ASCII level: `str.lower` is
  ASCII lowercasing, the `\d` of the `SCHEME` regex is the ASCII digits,
  and the NFKC re-check of `urllib.parse._checknetloc` (a no-op for the
  ASCII netlocs appearing here) is treated as passing.
* `os.path` is the POSIX implementation (`posixpath`).
-/

/-- Python `str`, modelled as a list of characters. -/
abbrev Str := List Char

/-- Shorthand turning a Lean string literal into a `Str`. -/
def pstr (s : String) : Str := s.data

/-- Python exceptions raised by the code under study. -/
inductive PyErr where
  | valueError (msg : String)
  | attributeError (msg : String)
  | typeError (msg : String)
deriving DecidableEq, Repr

/-- Python truthiness of an optional string (`None` and `""` are falsy). -/
def truthy : Option Str → Bool
  | none => false
  | some s => !s.isEmpty

/-- Value of an optional string, `[]` for `None` (used only under truthiness guards). -/
def pyVal (o : Option Str) : Str := o.getD []

/-- Rendering of an optional string inside an f-string: `None` prints as `"None"`. -/
def pyStr : Option Str → Str
  | none => pstr "None"
  | some s => s

/-- Does the string contain the character?  (Python `c in s`.) -/
def hasChar (c : Char) (s : Str) : Bool := s.any (· = c)

/-- Python `s.replace(c, r)` for a single-character pattern `c`. -/
def replaceCharWith (c : Char) (r : Str) (s : Str) : Str :=
  (s.map (fun x => if x = c then r else [x])).flatten

/-- ASCII lowercasing of one character (Python `str.lower`, ASCII fragment). -/
def pyLowerChar (c : Char) : Char :=
  if 65 ≤ c.toNat ∧ c.toNat ≤ 90 then Char.ofNat (c.toNat + 32) else c

/-- Python `str.lower` (ASCII fragment). -/
def pyLower (s : Str) : Str := s.map pyLowerChar

/-- Python `str.split(sep)` for a single-character separator. -/
def splitOnChar (c : Char) : Str → List Str
  | [] => [[]]
  | x :: xs =>
    if x = c then [] :: splitOnChar c xs
    else
      match splitOnChar c xs with
      | r :: rs => (x :: r) :: rs
      | [] => [[x]]

/-- Python `sep.join(parts)` for a single-character separator. -/
def joinSep (c : Char) : List Str → Str
  | [] => []
  | [s] => s
  | s :: rest => s ++ c :: joinSep c rest

/-- Python `s.split(c, 1)` when `c` occurs in `s`: the part before the first
occurrence and the part after it. -/
def splitFirstAt (c : Char) (s : Str) : Str × Str :=
  (s.takeWhile (· ≠ c), (s.dropWhile (· ≠ c)).tail)

/-- First index of `c` in `s` (Python `s.find(c)` when non-negative). -/
def findIdxOfChar (c : Char) : Str → Option Nat
  | [] => none
  | x :: t => if x = c then some 0 else (findIdxOfChar c t).map (· + 1)

/-- First index of `c` in `s` at or after `start` (Python `s.find(c, start)`). -/
def findIdxOfCharFrom (c : Char) (start : Nat) (s : Str) : Option Nat :=
  (findIdxOfChar c (s.drop start)).map (· + start)

/-- Last index of `c` in `s` (Python `s.rfind(c)` when non-negative). -/
def rfindIdxOfChar (c : Char) (s : Str) : Option Nat :=
  (findIdxOfChar c s.reverse).map (fun i => s.length - 1 - i)

/-- ASCII letter test (Python `c.isascii() and c.isalpha()`). -/
def isAsciiAlpha (c : Char) : Bool :=
  (65 ≤ c.toNat && c.toNat ≤ 90) || (97 ≤ c.toNat && c.toNat ≤ 122)

/-- ASCII digit test. -/
def isAsciiDigit (c : Char) : Bool := 48 ≤ c.toNat && c.toNat ≤ 57

/-- Hexadecimal digit test. -/
def isHexDigitChar (c : Char) : Bool :=
  isAsciiDigit c || (65 ≤ c.toNat && c.toNat ≤ 70) || (97 ≤ c.toNat && c.toNat ≤ 102)

/-- Value of a hexadecimal digit. -/
def hexVal (c : Char) : Nat :=
  if isAsciiDigit c then c.toNat - 48
  else if 65 ≤ c.toNat && c.toNat ≤ 70 then c.toNat - 55
  else c.toNat - 87

/-- Upper-case hexadecimal digit for a value below 16. -/
def hexDigitUpper (n : Nat) : Char :=
  if n < 10 then Char.ofNat (48 + n) else Char.ofNat (55 + n)

/-- UTF-8 encoding of one character, as byte values. -/
def utf8Bytes (c : Char) : List Nat :=
  let n := c.toNat
  if n < 128 then [n]
  else if n < 2048 then [192 + n / 64, 128 + n % 64]
  else if n < 65536 then [224 + n / 4096, 128 + (n / 64) % 64, 128 + n % 64]
  else [240 + n / 262144, 128 + (n / 4096) % 64, 128 + (n / 64) % 64, 128 + n % 64]

/-- Bytes that `urllib.parse.quote` leaves unescaped with the default
`safe="/"`: the always-safe `A-Z a-z 0-9 _ . - ~` plus `/`. -/
def quoteSafeByte (b : Nat) : Bool :=
  (65 ≤ b && b ≤ 90) || (97 ≤ b && b ≤ 122) || (48 ≤ b && b ≤ 57) ||
  b == 95 || b == 46 || b == 45 || b == 126 || b == 47

/-- Percent-escape of one byte (`%XX`, upper-case hex). -/
def pctByte (b : Nat) : Str := ['%', hexDigitUpper (b / 16), hexDigitUpper (b % 16)]

/-- `urllib.parse.quote` applied to one character: its UTF-8 bytes, each
emitted verbatim when safe and percent-escaped otherwise. -/
def quoteChar (c : Char) : Str :=
  ((utf8Bytes c).map (fun b => if quoteSafeByte b then [Char.ofNat b] else pctByte b)).flatten

/-- `urllib.parse.quote(s)` with the default `safe="/"`. -/
def pyQuote (s : Str) : Str := (s.map quoteChar).flatten

/-- `urllib.parse.unquote_to_bytes` on one ASCII run: each `%XX` with two
hex digits becomes the byte `XX`; an invalid escape keeps its `%` literal;
other characters contribute their own byte.  Structured with explicit fuel
(one unit per consumed character) so that the recursion is structural. -/
def unquoteToBytesF : Nat → Str → List Nat
  | 0, _ => []
  | _ + 1, [] => []
  | fuel + 1, '%' :: a :: b :: rest =>
    if isHexDigitChar a && isHexDigitChar b then
      (16 * hexVal a + hexVal b) :: unquoteToBytesF fuel rest
    else 37 :: unquoteToBytesF fuel (a :: b :: rest)
  | fuel + 1, c :: rest => c.toNat :: unquoteToBytesF fuel rest

/-- `urllib.parse.unquote_to_bytes` (over a run of ASCII characters). -/
def unquoteToBytes (s : Str) : List Nat := unquoteToBytesF s.length s

/-- Is `b` a UTF-8 continuation byte? -/
def isContByte (b : Nat) : Bool := 128 ≤ b && b ≤ 191

/-- UTF-8 decoding with `errors="replace"`: invalid sequences are replaced
by U+FFFD following the usual maximal-subpart convention (the error paths
are never exercised by the theorems below).  Fuel-structured recursion. -/
def utf8DecodeF : Nat → List Nat → Str
  | 0, _ => []
  | _ + 1, [] => []
  | fuel + 1, b :: rest =>
    if b < 128 then Char.ofNat b :: utf8DecodeF fuel rest
    else if 194 ≤ b && b ≤ 223 then
      match rest with
      | b2 :: rest2 =>
        if isContByte b2 then Char.ofNat ((b - 192) * 64 + (b2 - 128)) :: utf8DecodeF fuel rest2
        else '�' :: utf8DecodeF fuel rest
      | [] => ['�']
    else if 224 ≤ b && b ≤ 239 then
      match rest with
      | b2 :: b3 :: rest3 =>
        if (isContByte b2 && isContByte b3) &&
           !(b == 224 && b2 < 160) && !(b == 237 && b2 > 159) then
          Char.ofNat ((b - 224) * 4096 + (b2 - 128) * 64 + (b3 - 128)) :: utf8DecodeF fuel rest3
        else '�' :: utf8DecodeF fuel (b2 :: b3 :: rest3)
      | _ => ['�']
    else if 240 ≤ b && b ≤ 244 then
      match rest with
      | b2 :: b3 :: b4 :: rest4 =>
        if ((isContByte b2 && isContByte b3) && isContByte b4) &&
           !(b == 240 && b2 < 144) && !(b == 244 && b2 > 143) then
          Char.ofNat ((b - 240) * 262144 + (b2 - 128) * 4096 + (b3 - 128) * 64 + (b4 - 128)) ::
            utf8DecodeF fuel rest4
        else '�' :: utf8DecodeF fuel (b2 :: b3 :: b4 :: rest4)
      | _ => ['�']
    else '�' :: utf8DecodeF fuel rest

/-- UTF-8 decoding with replacement. -/
def utf8DecodeReplace (bs : List Nat) : Str := utf8DecodeF bs.length bs

/-- Body of `urllib.parse.unquote` past its fast path: the string is cut
into maximal non-ASCII / ASCII runs (CPython splits on `_asciire`);
non-ASCII runs pass through verbatim and each ASCII run is percent-decoded
to bytes and then UTF-8 decoded.  Fuel-structured recursion. -/
def pyUnquoteRunsF : Nat → Str → Str
  | 0, _ => []
  | _ + 1, [] => []
  | fuel + 1, s =>
    let nonAscii := s.takeWhile (fun c => 128 ≤ c.toNat)
    let s1 := s.dropWhile (fun c => 128 ≤ c.toNat)
    let asciiRun := s1.takeWhile (fun c => c.toNat < 128)
    let s2 := s1.dropWhile (fun c => c.toNat < 128)
    nonAscii ++ utf8DecodeReplace (unquoteToBytes asciiRun) ++ pyUnquoteRunsF fuel s2

/-- `urllib.parse.unquote(s)` (with the default `encoding="utf-8",
errors="replace"`).  The fast path returns `s` unchanged when it contains
no `%`. -/
def pyUnquote (s : Str) : Str :=
  if hasChar '%' s then pyUnquoteRunsF s.length s else s

/-- Characters stripped from the front of a URL by `urllib.parse.urlsplit`
(the WHATWG C0-control-or-space set; only the leading side is stripped). -/
def isC0OrSpace (c : Char) : Bool := c.toNat ≤ 32

/-- Leading strip of C0 controls and spaces (`url.lstrip(...)`). -/
def lstripC0Space (s : Str) : Str := s.dropWhile isC0OrSpace

/-- Removal of the unsafe bytes tab, CR and LF anywhere in the URL
(`urllib.parse._UNSAFE_URL_BYTES_TO_REMOVE`). -/
def removeUnsafe (s : Str) : Str :=
  s.filter (fun c => !(c = '\t' || c = '\r' || c = '\n'))

/-- Characters allowed in a scheme by `urllib.parse` (`scheme_chars`). -/
def urlSchemeChar (c : Char) : Bool :=
  isAsciiAlpha c || isAsciiDigit c || c = '+' || c = '-' || c = '.'

/-- Netloc delimiter test of `urllib.parse._splitnetloc` (`/`, `?` and `#`). -/
def netlocDelim (c : Char) : Bool := c = '/' || c = '?' || c = '#'

/-- The scheme-detection block of `urllib.parse.urlsplit`: when a `:` is
present at a positive index, the first character is an ASCII letter and
everything before the colon is a scheme character, the scheme (lowercased)
is split off. -/
def urlsplitScheme (url1 : Str) : Str × Str :=
  match findIdxOfChar ':' url1 with
  | some i =>
    if 0 < i && (match url1 with | c :: _ => isAsciiAlpha c | [] => false) &&
       (url1.take i).all urlSchemeChar then
      (pyLower (url1.take i), url1.drop (i + 1))
    else ([], url1)
  | none => ([], url1)

/-- The netloc block of `urllib.parse.urlsplit`: when the remainder starts
with `//`, the netloc runs to the first `/`, `?` or `#` (`_splitnetloc`
computes the least delimiter index, expressed here as
`takeWhile`/`dropWhile`), with the bracket-balance check of the host.  The
`_check_bracketed_host` validation of a host in balanced `[...]` brackets
and the NFKC re-check of `_checknetloc` (a no-op for ASCII netlocs) are
modelled as passing. -/
def urlsplitNetloc (url2 : Str) : Except PyErr (Str × Str) :=
  if url2.take 2 = pstr "//" then
    let netloc := (url2.drop 2).takeWhile (fun c => !netlocDelim c)
    let url3 := (url2.drop 2).dropWhile (fun c => !netlocDelim c)
    if (hasChar '[' netloc ∧ ¬ hasChar ']' netloc) ∨
       (hasChar ']' netloc ∧ ¬ hasChar '[' netloc) then
      .error (.valueError "Invalid IPv6 URL")
    else .ok (netloc, url3)
  else .ok ([], url2)

/-- `urllib.parse.urlsplit` (with default `scheme=""`, `allow_fragments=True`):
returns `(scheme, netloc, path, query, fragment)`. -/
def pyUrlsplit (url0 : Str) : Except PyErr (Str × Str × Str × Str × Str) :=
  let sp := urlsplitScheme (removeUnsafe (lstripC0Space url0))
  match urlsplitNetloc sp.2 with
  | .error e => .error e
  | .ok nl =>
    let uf := if hasChar '#' nl.2 then splitFirstAt '#' nl.2 else (nl.2, [])
    let uq := if hasChar '?' uf.1 then splitFirstAt '?' uf.1 else (uf.1, [])
    .ok (sp.1, nl.1, uq.1, uq.2, uf.2)

/-- The schemes of `urllib.parse.uses_params` (CPython 3.11). -/
def usesParams : List Str :=
  [pstr "", pstr "ftp", pstr "hdl", pstr "prospero", pstr "http", pstr "imap",
   pstr "https", pstr "shttp", pstr "rtsp", pstr "rtsps", pstr "rtspu",
   pstr "sip", pstr "sips", pstr "mms", pstr "sftp", pstr "tel"]

/-- The schemes of `urllib.parse.uses_netloc` (CPython 3.11). -/
def usesNetloc : List Str :=
  [pstr "", pstr "ftp", pstr "http", pstr "gopher", pstr "nntp", pstr "telnet",
   pstr "imap", pstr "wais", pstr "file", pstr "mms", pstr "https", pstr "shttp",
   pstr "snews", pstr "prospero", pstr "rtsp", pstr "rtsps", pstr "rtspu",
   pstr "rsync", pstr "svn", pstr "svn+ssh", pstr "sftp", pstr "nfs",
   pstr "git", pstr "git+ssh", pstr "ws", pstr "wss"]

/-- `urllib.parse._splitparams`: split `;params` off the last path segment.
(In the slash-free branch CPython slices with `find`'s `-1` when `;` is
absent; the function is only invoked when `;` occurs in the path.) -/
def pySplitparams (url : Str) : Str × Str :=
  if hasChar '/' url then
    match rfindIdxOfChar '/' url with
    | some r =>
      match findIdxOfCharFrom ';' r url with
      | some i => (url.take i, url.drop (i + 1))
      | none => (url, [])
    | none => (url, [])
  else
    match findIdxOfChar ';' url with
    | some i => (url.take i, url.drop (i + 1))
    | none => (url.take (url.length - 1), url)

/-- `urllib.parse.urlparse`: `urlsplit` plus the params split, returning
`(scheme, netloc, path, params, query, fragment)`. -/
def pyUrlparse (url : Str) : Except PyErr (Str × Str × Str × Str × Str × Str) := do
  let (scheme, netloc, rest, query, fragment) ← pyUrlsplit url
  let (path, params) :=
    if usesParams.contains scheme ∧ hasChar ';' rest then pySplitparams rest
    else (rest, [])
  return (scheme, netloc, path, params, query, fragment)

/-- `urllib.parse.urlunsplit` (CPython 3.11: the `//` is emitted when the
netloc is truthy or the scheme uses a netloc and the url does not already
start with `//`). -/
def pyUrlunsplit (scheme netloc url query fragment : Str) : Str :=
  let url1 :=
    if !netloc.isEmpty || (!scheme.isEmpty && usesNetloc.contains scheme &&
        !(url.take 2 = pstr "//")) then
      let url' := if !url.isEmpty ∧ url.take 1 ≠ pstr "/" then '/' :: url else url
      '/' :: '/' :: netloc ++ url'
    else url
  let url2 := if !scheme.isEmpty then scheme ++ ':' :: url1 else url1
  let url3 := if !query.isEmpty then url2 ++ '?' :: query else url2
  if !fragment.isEmpty then url3 ++ '#' :: fragment else url3

/-- `urllib.parse.urlunparse`. -/
def pyUrlunparse (scheme netloc url params query fragment : Str) : Str :=
  let url1 := if !params.isEmpty then url ++ ';' :: params else url
  pyUrlunsplit scheme netloc url1 query fragment

/-- `posixpath.join` restricted to two arguments (`os.path.join(a, b)`;
`os.path` is modelled as the POSIX implementation). -/
def posixJoin (a b : Str) : Str :=
  if b.take 1 = pstr "/" then b
  else if a.isEmpty || a.getLast? = some '/' then a ++ b
  else a ++ '/' :: b

/-- `posixpath.normpath` (`os.path.normpath` on POSIX). -/
def posixNormpath (p : Str) : Str :=
  if p.isEmpty then pstr "."
  else
    let initialSlashes : Nat :=
      if p.take 1 = pstr "/" then
        if p.take 2 = pstr "//" ∧ p.take 3 ≠ pstr "///" then 2 else 1
      else 0
    let comps := splitOnChar '/' p
    let newComps := comps.foldl
      (fun acc comp =>
        if comp = [] ∨ comp = pstr "." then acc
        else if comp ≠ pstr ".." ∨ (initialSlashes = 0 ∧ acc = []) ∨
                (acc ≠ [] ∧ acc.getLast? = some (pstr "..")) then acc ++ [comp]
        else if acc ≠ [] then acc.dropLast
        else acc)
      []
    let joined := List.replicate initialSlashes '/' ++ joinSep '/' newComps
    if joined.isEmpty then pstr "." else joined

/-- The `SCHEME` regex of `pygls/uris.py`: `^[a-zA-Z][a-zA-Z\d+.-]*$`
(`\d` modelled as the ASCII digits). -/
def schemeMatch : Str → Bool
  | [] => false
  | c :: cs => isAsciiAlpha c && cs.all urlSchemeChar

/-- The `RE_DRIVE_LETTER_PATH` regex of `pygls/uris.py`,
`^(\/?)([a-zA-Z]:)`: on a match, returns the two groups (an optional
leading slash, and the drive letter with its colon). -/
def driveLetterMatch : Str → Option (Str × Str)
  | '/' :: c :: ':' :: _ => if isAsciiAlpha c then some (pstr "/", [c, ':']) else none
  | c :: ':' :: _ => if isAsciiAlpha c then some ([], [c, ':']) else none
  | _ => none

/-- The `Uri` attrs class of `pygls/uris.py`.  Fields are `Option Str`
because Python permits `None` in any of them (`Uri.where` passes `None`
through); a field holding `some []` is Python's empty string. -/
structure Uri where
  scheme : Option Str
  authority : Option Str
  path : Option Str
  query : Option Str
  fragment : Option Str
deriving DecidableEq, Repr

/-- Construction of a `Uri` together with `Uri.__attrs_post_init__`: the
basic validation run by attrs after every construction. -/
def uriNew (scheme authority path query fragment : Option Str) : Except PyErr Uri :=
  match scheme with
  | none => .error (.valueError "URIs must have a scheme")
  | some s =>
    if ¬ schemeMatch s then .error (.valueError "Invalid scheme")
    else if truthy authority && truthy path && !((pyVal path).take 1 = pstr "/") then
      .error (.valueError "Paths with an authority must start with a slash")
    else if truthy path && (pyVal path).take 2 = pstr "//" && !truthy authority then
      .error (.valueError "Paths without an authority cannot start with two slashes")
    else .ok ⟨some s, authority, path, query, fragment⟩

/-- Decidable equality on `Except`, used to settle concrete runs. -/
instance {ε α : Type} [DecidableEq ε] [DecidableEq α] : DecidableEq (Except ε α) := fun a b =>
  match a, b with
  | .ok x, .ok y =>
    if h : x = y then isTrue (by rw [h]) else isFalse (fun hc => h (Except.ok.inj hc))
  | .error e, .error f =>
    if h : e = f then isTrue (by rw [h]) else isFalse (fun hc => h (Except.error.inj hc))
  | .ok _, .error _ => isFalse (fun hc => Except.noConfusion hc)
  | .error _, .ok _ => isFalse (fun hc => Except.noConfusion hc)

/-- Does the validation of `Uri.__attrs_post_init__` accept this record?
(Holds exactly for the records constructible in Python.) -/
def validUri (u : Uri) : Bool :=
  decide (uriNew u.scheme u.authority u.path u.query u.fragment = .ok u)

/-- The scheme set `{"http", "https", "file"}` tested by `Uri.create`. -/
def isSpecialScheme (s : Option Str) : Prop :=
  s = some (pstr "http") ∨ s = some (pstr "https") ∨ s = some (pstr "file")

instance (s : Option Str) : Decidable (isSpecialScheme s) := by
  unfold isSpecialScheme
  infer_instance

/-- `Uri.create`.  In Python all five keyword parameters default to `""`;
callers here always pass explicit values (`some (pstr "")` for a default).
Note `path.startswith` on a `None` path raises `AttributeError` when the
scheme is `http`, `https` or `file`. -/
def Uri.create (scheme authority path query fragment : Option Str) : Except PyErr Uri :=
  if isSpecialScheme scheme then
    match path with
    | none => .error (.attributeError "NoneType object has no attribute startswith")
    | some p =>
      let p' := if p.take 1 = pstr "/" then p else '/' :: p
      uriNew scheme authority (some p') query fragment
  else uriNew scheme authority path query fragment

/-- The module-level `urlparse` of `pygls/uris.py`: `urllib.parse.urlparse`
followed by percent-decoding of each of the six components. -/
def urlparse (uri : Str) : Except PyErr (Str × Str × Str × Str × Str × Str) := do
  let (scheme, netloc, path, params, query, fragment) ← pyUrlparse uri
  return (pyUnquote scheme, pyUnquote netloc, pyUnquote path,
          pyUnquote params, pyUnquote query, pyUnquote fragment)

/-- The module-level `urlunparse` of `pygls/uris.py`: percent-encode the
parts and unparse them, never encoding a windows drive letter colon. -/
def urlunparse (scheme netloc path params query fragment : Str) : Str :=
  let quotedPath :=
    if (driveLetterMatch path).isSome then path.take 3 ++ pyQuote (path.drop 3)
    else pyQuote path
  pyUrlunparse (pyQuote scheme) (pyQuote netloc) quotedPath
    (pyQuote params) (pyQuote query) (pyQuote fragment)

/-- `Uri.parse`. -/
def Uri.parse (uri : Str) : Except PyErr Uri := do
  let (scheme, authority, path, _, query, fragment) ← urlparse uri
  Uri.create (some scheme) (some authority) (some path) (some query) (some fragment)

/-- `Uri.for_file`.  `w` is the process-wide `IS_WIN` flag. -/
def Uri.for_file (w : Bool) (filepath0 : Str) : Except PyErr Uri :=
  let filepath := if w then replaceCharWith '\\' (pstr "/") filepath0 else filepath0
  if filepath.take 2 = pstr "//" then
    let parts := splitOnChar '/' (filepath.drop 2)
    let authority := parts.headD []
    let path := joinSep '/' parts.tail
    Uri.create (some (pstr "file")) (some authority) (some path) (some []) (some [])
  else
    Uri.create (some (pstr "file")) (some []) (some filepath) (some []) (some [])

/-- `_normalize_path` of `pygls/uris.py`. -/
def normalize_path (w : Bool) (path0 : Str) : Str :=
  let path1 := if w then replaceCharWith '\\' (pstr "/") path0 else path0
  match driveLetterMatch path1 with
  | some (g1, g2) => g1 ++ pyLower g2 ++ path1.drop (g1.length + g2.length)
  | none => path1

/-- `Uri.fs_path` (a property; `w` is `IS_WIN`).  Returns `none` when the
Python property falls through without returning (empty or `None` path). -/
def Uri.fs_path (w : Bool) (u : Uri) : Option Str :=
  if truthy u.path then
    let path := normalize_path w (pyVal u.path)
    let path :=
      if truthy u.authority && decide (1 < path.length) then
        '/' :: '/' :: pyVal u.authority ++ path
      else if (driveLetterMatch path).isSome then path.drop 1
      else path
    let path := if w then replaceCharWith '\\' (pstr "/") path else path
    some path
  else none

/-- `Uri.where`: keyword arguments are an association list from component
names to replacement values (`none` models Python `None`).  Only the five
component names are consulted, so unknown keys are ignored, exactly as the
`keys ∩ kwargs` intersection in the source. -/
def Uri.where' (u : Uri) (kwargs : List (String × Option Str)) : Except PyErr Uri :=
  let pick := fun (k : String) (cur : Option Str) =>
    match kwargs.lookup k with
    | some v => v
    | none => cur
  Uri.create (pick "scheme" u.scheme) (pick "authority" u.authority)
    (pick "path" u.path) (pick "query" u.query) (pick "fragment" u.fragment)

/-- `Uri.join` (`os.path` modelled as POSIX). -/
def Uri.join (u : Uri) (path : Str) : Except PyErr Uri :=
  if ¬ truthy u.path then .error (.valueError "This uri has no path")
  else
    let newPath := posixNormpath (posixJoin (pyVal u.path) path)
    u.where' [("path", some newPath)]

/-- `_replace_chars` of `pygls/uris.py`: `#` and `?` escaped, in that
order (the first replacement introduces no `?`). -/
def replace_chars (segment : Str) : Str :=
  replaceCharWith '?' (pstr "%3F") (replaceCharWith '#' (pstr "%23") segment)

/-- The credential/host mangling that `Uri.as_string` performs on a truthy
authority, parameterized by the chosen encoder. -/
def asStringAuthority (encoder : Str → Str) (authority0 : Str) : Str :=
  let parts := splitOnChar '@' authority0
  let usercred0 := parts.headD []
  let auth := parts.tail
  let (usercred, authority1) :=
    if 0 < auth.length then
      let userParts := splitOnChar ':' usercred0
      let user := userParts.dropLast
      let cred := userParts.getLastD []
      let uc :=
        if 0 < user.length then encoder (joinSep ':' user) ++ ':' :: encoder cred
        else encoder usercred0
      (some uc, joinSep '@' auth)
    else (none, authority0)
  let authority2 := pyLower authority1
  let portParts := splitOnChar ':' authority2
  let auth2 := portParts.dropLast
  let port := portParts.getLastD []
  let authority3 :=
    if 0 < auth2.length then encoder (joinSep ':' auth2) ++ ':' :: port
    else encoder authority2
  match usercred with
  | some uc => if !uc.isEmpty then uc ++ '@' :: authority3 else authority3
  | none => authority3

/-- `Uri.as_string` (`w` is `IS_WIN`, `encode` selects the encoder). -/
def Uri.as_string (w : Bool) (u : Uri) (encode : Bool) : Str :=
  let encoder := if encode then pyQuote else replace_chars
  let authorityL : Option Str :=
    if truthy u.authority then some (asStringAuthority encoder (pyVal u.authority))
    else u.authority
  let sep : Str :=
    if truthy authorityL || u.scheme = some (pstr "file") then pstr "//" else []
  let pathL : Option Str :=
    if truthy u.path then some (encoder (normalize_path w (pyVal u.path))) else u.path
  let queryL : Option Str :=
    if truthy u.query then some (encoder (pyVal u.query)) else u.query
  let fragL : Option Str :=
    if truthy u.fragment then some (encoder (pyVal u.fragment)) else u.fragment
  pyStr u.scheme ++ ':' :: sep ++
    (if truthy authorityL then pyVal authorityL else []) ++
    (if truthy pathL then pyVal pathL else []) ++
    (if truthy queryL then '?' :: pyVal queryL else []) ++
    (if truthy fragL then '#' :: pyVal fragL else [])

/-- `_normalize_win_path` of `pygls/uris.py`.  `path.index("/", 2)` is
Python `str.index`, which raises `ValueError` when the slash is absent, so
the source's `if idx == -1` branch is dead code and only its `else` branch
is live. -/
def normalize_win_path (w : Bool) (path0 : Str) : Except PyErr (Str × Str) :=
  let path1 := if w then replaceCharWith '\\' (pstr "/") path0 else path0
  let step2 : Except PyErr (Str × Str) :=
    if path1.take 2 = pstr "//" then
      match findIdxOfCharFrom '/' 2 path1 with
      | none => .error (.valueError "substring not found")
      | some idx => .ok (path1.drop idx, (path1.drop 2).take (idx - 2))
    else .ok (path1, [])
  match step2 with
  | .error e => .error e
  | .ok (path2, netloc) =>
    let path3 := if path2.take 1 = pstr "/" then path2 else '/' :: path2
    let path4 :=
      if (driveLetterMatch path3).isSome then
        match path3 with
        | a :: b :: rest => a :: pyLowerChar b :: rest
        | short => short
      else path3
    .ok (path4, netloc)

/-- `from_fs_path` of `pygls/uris.py`: best-effort URI from a filesystem
path; `AttributeError` and `TypeError` are absorbed into `None`, every
other exception propagates. -/
def from_fs_path (w : Bool) (path : Str) : Except PyErr (Option Str) :=
  match normalize_win_path w path with
  | .ok (path', netloc) =>
    .ok (some (urlunparse (pstr "file") netloc path' [] [] []))
  | .error (.attributeError _) => .ok none
  | .error (.typeError _) => .ok none
  | .error e => .error e

/-- `to_fs_path` of `pygls/uris.py`: filesystem path of a URI string; only
`TypeError` is absorbed into `None`. -/
def to_fs_path (w : Bool) (uri : Str) : Except PyErr (Option Str) :=
  match urlparse uri with
  | .ok (scheme, netloc, path, _, _, _) =>
    let value :=
      if (!netloc.isEmpty && !path.isEmpty) && scheme = pstr "file" then
        '/' :: '/' :: netloc ++ path
      else if (driveLetterMatch path).isSome then
        match path with
        | _ :: c :: rest => pyLowerChar c :: rest
        | short => short
      else path
    let value := if w then replaceCharWith '/' (pstr "\\") value else value
    .ok (some value)
  | .error (.typeError _) => .ok none
  | .error e => .error e

/-- `uri_scheme` of `pygls/uris.py`: only `TypeError` and `IndexError`
(impossible on a six-component result) are absorbed. -/
def uri_scheme (uri : Str) : Except PyErr (Option Str) :=
  match urlparse uri with
  | .ok (scheme, _, _, _, _, _) => .ok (some scheme)
  | .error (.typeError _) => .ok none
  | .error e => .error e

/-! ### Character classes used by the round-trip analysis

The classes below carve out inputs on which every encoder, decoder and
normalization step of the library acts as the identity: lower-case ASCII
letters for schemes; letters, digits, dot and hyphen for authorities; those
plus slash, underscore and tilde for paths, queries and fragments. -/

def schemeOkChar (c : Char) : Bool := 97 ≤ c.toNat && c.toNat ≤ 122

def authOkChar (c : Char) : Bool :=
  schemeOkChar c || isAsciiDigit c || c.toNat == 46 || c.toNat == 45

def compOkChar (c : Char) : Bool :=
  authOkChar c || c.toNat == 47 || c.toNat == 95 || c.toNat == 126

theorem ne_of_toNat_ne {c d : Char} (h : c.toNat ≠ d.toNat) : c ≠ d :=
  fun hc => h (congrArg Char.toNat hc)

theorem compOk_range {c : Char} (h : compOkChar c = true) :
    (97 ≤ c.toNat ∧ c.toNat ≤ 122) ∨ (48 ≤ c.toNat ∧ c.toNat ≤ 57) ∨
    c.toNat = 46 ∨ c.toNat = 45 ∨ c.toNat = 47 ∨ c.toNat = 95 ∨ c.toNat = 126 := by
  simp only [compOkChar, authOkChar, schemeOkChar, isAsciiDigit, Bool.or_eq_true,
    Bool.and_eq_true, decide_eq_true_eq, beq_iff_eq] at h
  omega

theorem compOk_quoteChar {c : Char} (h : compOkChar c = true) : quoteChar c = [c] := by
  have hr := compOk_range h
  have hlt : c.toNat < 128 := by omega
  have hsafe : quoteSafeByte c.toNat = true := by
    simp only [quoteSafeByte, Bool.or_eq_true, Bool.and_eq_true, decide_eq_true_eq, beq_iff_eq]
    omega
  simp only [quoteChar, utf8Bytes, if_pos hlt, List.map_cons, List.map_nil, hsafe, if_pos,
    List.flatten]
  simp [Char.ofNat_toNat]
theorem compOk_lower {c : Char} (h : compOkChar c = true) : pyLowerChar c = c := by
  have hr := compOk_range h
  unfold pyLowerChar
  rw [if_neg (by omega)]

theorem compOk_gt32 {c : Char} (h : compOkChar c = true) : 32 < c.toNat := by
  have hr := compOk_range h
  omega

theorem compOk_ne {c : Char} (h : compOkChar c = true) (d : Char)
    (hd : d.toNat < 45 ∨ (58 ≤ d.toNat ∧ d.toNat ≤ 94) ∨ d.toNat = 96 ∨
      (123 ≤ d.toNat ∧ d.toNat ≤ 125)) : c ≠ d := by
  have hr := compOk_range h
  refine ne_of_toNat_ne ?_
  rcases hr with hA|hA|hA|hA|hA|hA|hA <;> rcases hd with hB|hB|hB|hB <;> omega

theorem authOk_comp {c : Char} (h : authOkChar c = true) : compOkChar c = true := by
  simp only [compOkChar, Bool.or_eq_true]
  exact Or.inl (Or.inl (Or.inl h))

theorem schemeOk_comp {c : Char} (h : schemeOkChar c = true) : compOkChar c = true := by
  simp only [compOkChar, authOkChar, Bool.or_eq_true]
  exact Or.inl (Or.inl (Or.inl (Or.inl (Or.inl (Or.inl h)))))

theorem authOk_ne_slash {c : Char} (h : authOkChar c = true) : c ≠ '/' := by
  simp only [authOkChar, schemeOkChar, isAsciiDigit, Bool.or_eq_true, Bool.and_eq_true,
    decide_eq_true_eq, beq_iff_eq] at h
  refine ne_of_toNat_ne ?_
  have h47 : ('/').toNat = 47 := rfl
  omega

theorem authOk_ne_at {c : Char} (h : authOkChar c = true) : c ≠ '@' := by
  simp only [authOkChar, schemeOkChar, isAsciiDigit, Bool.or_eq_true, Bool.and_eq_true,
    decide_eq_true_eq, beq_iff_eq] at h
  refine ne_of_toNat_ne ?_
  have h64 : ('@').toNat = 64 := rfl
  omega

theorem compOk_ne_colon {c : Char} (h : compOkChar c = true) : c ≠ ':' :=
  compOk_ne h ':' (by decide)

theorem compOk_ne_hash {c : Char} (h : compOkChar c = true) : c ≠ '#' :=
  compOk_ne h '#' (by decide)

theorem compOk_ne_qmark {c : Char} (h : compOkChar c = true) : c ≠ '?' :=
  compOk_ne h '?' (by decide)

theorem compOk_ne_pct {c : Char} (h : compOkChar c = true) : c ≠ '%' :=
  compOk_ne h '%' (by decide)

theorem compOk_ne_semi {c : Char} (h : compOkChar c = true) : c ≠ ';' :=
  compOk_ne h ';' (by decide)

theorem compOk_ne_backslash {c : Char} (h : compOkChar c = true) : c ≠ '\\' :=
  compOk_ne h '\\' (by decide)

theorem compOk_ne_lbracket {c : Char} (h : compOkChar c = true) : c ≠ '[' :=
  compOk_ne h '[' (by decide)

theorem compOk_ne_rbracket {c : Char} (h : compOkChar c = true) : c ≠ ']' :=
  compOk_ne h ']' (by decide)

theorem schemeOk_urlSchemeChar {c : Char} (h : schemeOkChar c = true) : urlSchemeChar c = true := by
  simp only [schemeOkChar, Bool.and_eq_true, decide_eq_true_eq] at h
  simp only [urlSchemeChar, isAsciiAlpha, Bool.or_eq_true, Bool.and_eq_true, decide_eq_true_eq]
  omega

theorem schemeOk_alpha {c : Char} (h : schemeOkChar c = true) : isAsciiAlpha c = true := by
  simp only [schemeOkChar, Bool.and_eq_true, decide_eq_true_eq] at h
  simp only [isAsciiAlpha, Bool.or_eq_true, Bool.and_eq_true, decide_eq_true_eq]
  omega
theorem pyQuote_id {s : Str} (h : s.all compOkChar = true) : pyQuote s = s := by
  induction s with
  | nil => rfl
  | cons c t ih =>
    simp only [List.all_cons, Bool.and_eq_true] at h
    simp only [pyQuote, List.map_cons, List.flatten_cons, compOk_quoteChar h.1]
    simpa [pyQuote] using ih h.2

theorem replaceCharWith_id {c : Char} {r s : Str} (h : ∀ x ∈ s, x ≠ c) :
    replaceCharWith c r s = s := by
  induction s with
  | nil => rfl
  | cons x t ih =>
    simp only [replaceCharWith, List.map_cons, List.flatten_cons,
      if_neg (h x (List.mem_cons_self x t))]
    simpa [replaceCharWith] using ih (fun y hy => h y (List.mem_cons_of_mem x hy))

theorem pyLower_id {s : Str} (h : s.all compOkChar = true) : pyLower s = s := by
  induction s with
  | nil => rfl
  | cons c t ih =>
    simp only [List.all_cons, Bool.and_eq_true] at h
    simp only [pyLower, List.map_cons, compOk_lower h.1]
    simpa [pyLower] using ih h.2

theorem hasChar_eq_false {c : Char} {s : Str} (h : ∀ x ∈ s, x ≠ c) : hasChar c s = false := by
  simp only [hasChar, List.any_eq_false, decide_eq_true_eq]
  exact h

theorem pyUnquote_id {s : Str} (h : ∀ x ∈ s, x ≠ '%') : pyUnquote s = s := by
  unfold pyUnquote
  rw [hasChar_eq_false h]
  rfl

theorem replace_chars_id {s : Str} (h : s.all compOkChar = true) : replace_chars s = s := by
  have hall : ∀ x ∈ s, compOkChar x = true := by
    simpa [List.all_eq_true] using h
  unfold replace_chars
  rw [replaceCharWith_id (fun x hx => compOk_ne_hash (hall x hx)),
    replaceCharWith_id (fun x hx => compOk_ne_qmark (hall x hx))]

theorem dropWhile_eq_self {p : Char → Bool} {s : Str} (h : ∀ x ∈ s, p x = false) :
    s.dropWhile p = s := by
  cases s with
  | nil => rfl
  | cons c t => simp [List.dropWhile_cons, h c (List.mem_cons_self c t)]

theorem filter_eq_self {p : Char → Bool} {s : Str} (h : ∀ x ∈ s, p x = true) :
    s.filter p = s :=
  List.filter_eq_self.mpr h
theorem splitOnChar_eq_single {c : Char} {s : Str} (h : ∀ x ∈ s, x ≠ c) :
    splitOnChar c s = [s] := by
  induction s with
  | nil => rfl
  | cons x t ih =>
    simp only [splitOnChar, if_neg (h x (List.mem_cons_self x t))]
    rw [ih (fun y hy => h y (List.mem_cons_of_mem x hy))]

theorem findIdxOfChar_append {c : Char} {xs ys : Str} (h : ∀ x ∈ xs, x ≠ c) :
    findIdxOfChar c (xs ++ c :: ys) = some xs.length := by
  induction xs with
  | nil => simp [findIdxOfChar]
  | cons x t ih =>
    simp only [List.cons_append, findIdxOfChar, if_neg (h x (List.mem_cons_self x t)),
      List.append_eq]
    rw [ih (fun y hy => h y (List.mem_cons_of_mem x hy))]
    simp

theorem takeWhile_append_all {p : Char → Bool} {xs ys : Str} (h : ∀ x ∈ xs, p x = true) :
    (xs ++ ys).takeWhile p = xs ++ ys.takeWhile p := by
  induction xs with
  | nil => rfl
  | cons x t ih =>
    simp only [List.cons_append, List.takeWhile_cons, h x (List.mem_cons_self x t)]
    rw [ih (fun y hy => h y (List.mem_cons_of_mem x hy))]
    simp

theorem dropWhile_append_all {p : Char → Bool} {xs ys : Str} (h : ∀ x ∈ xs, p x = true) :
    (xs ++ ys).dropWhile p = ys.dropWhile p := by
  induction xs with
  | nil => rfl
  | cons x t ih =>
    simp only [List.cons_append, List.dropWhile_cons, h x (List.mem_cons_self x t)]
    exact ih (fun y hy => h y (List.mem_cons_of_mem x hy))

theorem splitFirstAt_append {c : Char} {xs ys : Str} (h : ∀ x ∈ xs, x ≠ c) :
    splitFirstAt c (xs ++ c :: ys) = (xs, ys) := by
  unfold splitFirstAt
  have hp : ∀ x ∈ xs, (decide (x ≠ c)) = true := by
    intro x hx
    simp [h x hx]
  rw [takeWhile_append_all hp, dropWhile_append_all hp]
  simp
theorem driveLetterMatch_none {s : Str} (h : ∀ x ∈ s, x ≠ ':') : driveLetterMatch s = none := by
  rw [driveLetterMatch.eq_def]
  split
  · exact absurd (h ':' (by simp)) (fun hc => hc rfl)
  · exact absurd (h ':' (by simp)) (fun hc => hc rfl)
  · rfl
theorem normalize_path_id (w : Bool) {p : Str} (h : p.all compOkChar = true) :
    normalize_path w p = p := by
  have hall : ∀ x ∈ p, compOkChar x = true := by simpa [List.all_eq_true] using h
  unfold normalize_path
  have hrepl : (if w then replaceCharWith '\\' (pstr "/") p else p) = p := by
    cases w with
    | false => rfl
    | true => exact replaceCharWith_id (fun x hx => compOk_ne_backslash (hall x hx))
  rw [hrepl]
  show (match driveLetterMatch p with
    | some (g1, g2) => g1 ++ pyLower g2 ++ p.drop (g1.length + g2.length)
    | none => p) = p
  rw [driveLetterMatch_none (fun x hx => compOk_ne_colon (hall x hx))]

theorem joinSep_single (c : Char) (s : Str) : joinSep c [s] = s := rfl

theorem asStringAuthority_id {encoder : Str → Str} {a : Str}
    (henc : encoder a = a) (ha : a.all authOkChar = true) :
    asStringAuthority encoder a = a := by
  have hall : ∀ x ∈ a, authOkChar x = true := by simpa [List.all_eq_true] using ha
  have hcall : ∀ x ∈ a, compOkChar x = true := fun x hx => authOk_comp (hall x hx)
  have hcomp : a.all compOkChar = true := by simpa [List.all_eq_true] using hcall
  unfold asStringAuthority
  rw [splitOnChar_eq_single (fun x hx => authOk_ne_at (hall x hx))]
  simp only [List.headD_cons, List.tail_cons, List.length_nil, lt_self_iff_false, if_false]
  rw [pyLower_id hcomp]
  rw [splitOnChar_eq_single (fun x hx => compOk_ne_colon (hcall x hx))]
  simp only [List.dropLast_single, List.length_nil, lt_self_iff_false, if_false]
  exact henc
theorem as_string_safe (w e : Bool) {s a p q f : Str}
    (hac : a.all authOkChar = true)
    (hpc : p.all compOkChar = true) (hqc : q.all compOkChar = true)
    (hfc : f.all compOkChar = true) :
    Uri.as_string w ⟨some s, some a, some p, some q, some f⟩ e =
      s ++ ':' :: ((if a ≠ [] ∨ s = pstr "file" then pstr "//" else []) ++
        (a ++ (p ++ ((if q ≠ [] then '?' :: q else []) ++
          (if f ≠ [] then '#' :: f else []))))) := by
  have hacomp : a.all compOkChar = true := by
    simp only [List.all_eq_true] at hac ⊢
    exact fun x hx => authOk_comp (hac x hx)
  have henc : ∀ t : Str, t.all compOkChar = true →
      (if e = true then pyQuote else replace_chars) t = t := by
    intro t ht
    cases e with
    | false => exact replace_chars_id ht
    | true => exact pyQuote_id ht
  have hA : (if truthy (some a) = true then
        some (asStringAuthority (if e = true then pyQuote else replace_chars) (pyVal (some a)))
      else some a) = some a := by
    by_cases haE : a = []
    · subst haE
      rfl
    · rw [if_pos (by simp [truthy, List.isEmpty_iff, haE])]
      simp only [pyVal, Option.getD]
      rw [asStringAuthority_id (henc a hacomp) hac]
  have hP : (if truthy (some p) = true then
        some ((if e = true then pyQuote else replace_chars) (normalize_path w (pyVal (some p))))
      else some p) = some p := by
    by_cases hpE : p = []
    · subst hpE
      rfl
    · rw [if_pos (by simp [truthy, List.isEmpty_iff, hpE])]
      simp only [pyVal, Option.getD]
      rw [normalize_path_id w hpc, henc p hpc]
  have hQ : (if truthy (some q) = true then
        some ((if e = true then pyQuote else replace_chars) (pyVal (some q)))
      else some q) = some q := by
    by_cases hqE : q = []
    · subst hqE
      rfl
    · rw [if_pos (by simp [truthy, List.isEmpty_iff, hqE])]
      simp only [pyVal, Option.getD]
      rw [henc q hqc]
  have hF : (if truthy (some f) = true then
        some ((if e = true then pyQuote else replace_chars) (pyVal (some f)))
      else some f) = some f := by
    by_cases hfE : f = []
    · subst hfE
      rfl
    · rw [if_pos (by simp [truthy, List.isEmpty_iff, hfE])]
      simp only [pyVal, Option.getD]
      rw [henc f hfc]
  unfold Uri.as_string
  simp only
  rw [hA, hP, hQ, hF]
  have partA : (if truthy (some a) = true then pyVal (some a) else []) = a := by
    by_cases haE : a = [] <;> simp [truthy, pyVal, List.isEmpty_iff, haE]
  have partP : (if truthy (some p) = true then pyVal (some p) else []) = p := by
    by_cases hpE : p = [] <;> simp [truthy, pyVal, List.isEmpty_iff, hpE]
  have partQ : (if truthy (some q) = true then '?' :: pyVal (some q) else []) =
      (if q ≠ [] then '?' :: q else []) := by
    by_cases hqE : q = [] <;> simp [truthy, pyVal, List.isEmpty_iff, hqE]
  have partF : (if truthy (some f) = true then '#' :: pyVal (some f) else []) =
      (if f ≠ [] then '#' :: f else []) := by
    by_cases hfE : f = [] <;> simp [truthy, pyVal, List.isEmpty_iff, hfE]
  have hsep : (if (truthy (some a) || decide (some s = some (pstr "file"))) = true then
        pstr "//" else ([] : Str)) =
      (if a ≠ [] ∨ s = pstr "file" then pstr "//" else []) := by
    by_cases h1 : a = [] <;> by_cases h2 : s = pstr "file" <;>
      simp [truthy, List.isEmpty_iff, h1, h2]
  rw [partA, partP, partQ, partF, hsep]
  simp only [pyStr, List.append_assoc, List.cons_append]
theorem hasChar_append_cons (c : Char) (xs ys : Str) : hasChar c (xs ++ c :: ys) = true := by
  simp [hasChar]

theorem if_bool_false {α : Sort _} {c : Bool} (x y : α) (h : c = false) :
    (if c = true then x else y) = y := by
  rw [h]
  simp

theorem if_bool_true {α : Sort _} {c : Bool} (x y : α) (h : c = true) :
    (if c = true then x else y) = x := by
  rw [h]
  simp

theorem fragquery_split {p q f : Str}
    (hpc : p.all compOkChar = true) (hqc : q.all compOkChar = true)
    (hfc : f.all compOkChar = true) :
    (fun url3 =>
      (fun (ur : Str × Str) =>
        (fun (ur2 : Str × Str) => (ur2.1, ur2.2, ur.2))
          (if hasChar '?' ur.1 then splitFirstAt '?' ur.1 else (ur.1, [])))
        (if hasChar '#' url3 then splitFirstAt '#' url3 else (url3, [])))
      (p ++ ((if q ≠ [] then '?' :: q else []) ++ (if f ≠ [] then '#' :: f else []))) =
      (p, q, f) := by
  have hpall : ∀ x ∈ p, compOkChar x = true := by simpa [List.all_eq_true] using hpc
  have hqall : ∀ x ∈ q, compOkChar x = true := by simpa [List.all_eq_true] using hqc
  have hph : ∀ x ∈ p, x ≠ '#' := fun x hx => compOk_ne_hash (hpall x hx)
  have hpq : ∀ x ∈ p, x ≠ '?' := fun x hx => compOk_ne_qmark (hpall x hx)
  have hpqh : ∀ x ∈ p ++ '?' :: q, x ≠ '#' := by
    intro x hx
    rcases List.mem_append.mp hx with h | h
    · exact hph x h
    · rcases List.mem_cons.mp h with h | h
      · subst h
        decide
      · exact compOk_ne_hash (hqall x h)
  simp only
  by_cases hqE : q = [] <;> by_cases hfE : f = []
  · subst hqE hfE
    simp only [ne_eq, eq_self_iff_true, not_true_eq_false, if_false, List.append_nil]
    rw [if_bool_false _ _ (hasChar_eq_false hph)]
    dsimp only
    rw [if_bool_false _ _ (hasChar_eq_false hpq)]
  · subst hqE
    simp only [ne_eq, eq_self_iff_true, not_true_eq_false, if_false, List.nil_append]
    rw [if_pos hfE]
    rw [if_bool_true _ _ (hasChar_append_cons '#' p f), splitFirstAt_append hph]
    dsimp only
    rw [if_bool_false _ _ (hasChar_eq_false hpq)]
  · subst hfE
    simp only [ne_eq, eq_self_iff_true, not_true_eq_false, if_false, List.append_nil]
    rw [if_pos hqE]
    rw [if_bool_false _ _ (hasChar_eq_false hpqh)]
    dsimp only
    rw [if_bool_true _ _ (hasChar_append_cons '?' p q), splitFirstAt_append hpq]
  · rw [if_pos hqE, if_pos hfE]
    rw [show p ++ ('?' :: q ++ '#' :: f) = (p ++ '?' :: q) ++ '#' :: f by
      simp [List.append_assoc]]
    rw [if_bool_true _ _ (hasChar_append_cons '#' (p ++ '?' :: q) f),
      splitFirstAt_append hpqh]
    dsimp only
    rw [if_bool_true _ _ (hasChar_append_cons '?' p q), splitFirstAt_append hpq]
theorem authOk_not_delim {c : Char} (h : authOkChar c = true) : (!netlocDelim c) = true := by
  have hc := authOk_comp h
  simp only [netlocDelim, Bool.not_eq_true', Bool.or_eq_false_iff, decide_eq_false_iff_not]
  exact ⟨⟨authOk_ne_slash h, compOk_ne_qmark hc⟩, compOk_ne_hash hc⟩

theorem netloc_cut {a p q f : Str} (hac : a.all authOkChar = true)
    (hstart : p ≠ [] → p.take 1 = pstr "/") :
    ((a ++ (p ++ ((if q ≠ [] then '?' :: q else []) ++
        (if f ≠ [] then '#' :: f else [])))).takeWhile (fun c => !netlocDelim c) = a ∧
     (a ++ (p ++ ((if q ≠ [] then '?' :: q else []) ++
        (if f ≠ [] then '#' :: f else [])))).dropWhile (fun c => !netlocDelim c) =
       p ++ ((if q ≠ [] then '?' :: q else []) ++ (if f ≠ [] then '#' :: f else []))) := by
  have haall : ∀ x ∈ a, authOkChar x = true := by simpa [List.all_eq_true] using hac
  have hpred : ∀ x ∈ a, (fun c => !netlocDelim c) x = true :=
    fun x hx => authOk_not_delim (haall x hx)
  have hX : (p ++ ((if q ≠ [] then '?' :: q else []) ++
      (if f ≠ [] then '#' :: f else []))).takeWhile (fun c => !netlocDelim c) = [] ∧
      (p ++ ((if q ≠ [] then '?' :: q else []) ++
      (if f ≠ [] then '#' :: f else []))).dropWhile (fun c => !netlocDelim c) =
        p ++ ((if q ≠ [] then '?' :: q else []) ++ (if f ≠ [] then '#' :: f else [])) := by
    cases p with
    | cons c p' =>
      have h1 : (c :: p').take 1 = pstr "/" := hstart (by simp)
      have hc : c = '/' := by
        simpa [pstr, List.take] using h1
      subst hc
      constructor
      · simp [List.takeWhile_cons, netlocDelim]
      · simp [List.dropWhile_cons, netlocDelim]
    | nil =>
      simp only [List.nil_append]
      by_cases hqE : q = []
      · subst hqE
        simp only [ne_eq, eq_self_iff_true, not_true_eq_false, if_false, List.nil_append]
        by_cases hfE : f = []
        · subst hfE
          simp
        · rw [if_pos hfE]
          constructor
          · simp [List.takeWhile_cons, netlocDelim]
          · simp [List.dropWhile_cons, netlocDelim]
      · rw [if_pos hqE]
        constructor
        · simp [List.takeWhile_cons, netlocDelim]
        · simp [List.dropWhile_cons, netlocDelim]
  refine ⟨?_, ?_⟩
  · rw [takeWhile_append_all hpred, hX.1, List.append_nil]
  · rw [dropWhile_append_all hpred, hX.2]
theorem urlsplitScheme_eval {s rest : Str} (hne : s ≠ []) (hsc : s.all schemeOkChar = true) :
    urlsplitScheme (s ++ ':' :: rest) = (s, rest) := by
  have hsall : ∀ x ∈ s, schemeOkChar x = true := by simpa [List.all_eq_true] using hsc
  obtain ⟨c0, s', rfl⟩ : ∃ c0 s', s = c0 :: s' := by
    cases s with
    | nil => exact absurd rfl hne
    | cons c0 s' => exact ⟨c0, s', rfl⟩
  have hcond : ((decide (0 < (c0 :: s').length) && isAsciiAlpha c0) &&
      ((c0 :: s').all urlSchemeChar)) = true := by
    rw [schemeOk_alpha (hsall c0 (by simp))]
    have h2 : (c0 :: s').all urlSchemeChar = true := by
      simp only [List.all_eq_true]
      exact fun x hx => schemeOk_urlSchemeChar (hsall x hx)
    rw [h2]
    simp
  have hdrop : ((c0 :: s') ++ ':' :: rest).drop ((c0 :: s').length + 1) = rest := by
    rw [List.append_cons, List.drop_left']
    simp
  unfold urlsplitScheme
  rw [findIdxOfChar_append (fun x hx => compOk_ne_colon (schemeOk_comp (hsall x hx)))]
  dsimp only
  split
  · rw [List.take_left, pyLower_id (by
      simp only [List.all_eq_true]
      exact fun x hx => schemeOk_comp (hsall x hx)), hdrop]
  · rename_i hfalse
    exfalso
    apply hfalse
    show ((decide (0 < (c0 :: s').length) && isAsciiAlpha c0) &&
      (((c0 :: s') ++ ':' :: rest).take (c0 :: s').length).all urlSchemeChar) = true
    rw [List.take_left]
    exact hcond
theorem urlsplitNetloc_yes {a p q f : Str} (hac : a.all authOkChar = true)
    (hstart : p ≠ [] → p.take 1 = pstr "/") :
    urlsplitNetloc ('/' :: '/' :: (a ++ (p ++ ((if q ≠ [] then '?' :: q else []) ++
        (if f ≠ [] then '#' :: f else []))))) =
      .ok (a, p ++ ((if q ≠ [] then '?' :: q else []) ++
        (if f ≠ [] then '#' :: f else []))) := by
  have haall : ∀ x ∈ a, authOkChar x = true := by simpa [List.all_eq_true] using hac
  obtain ⟨hcut1, hcut2⟩ := netloc_cut hac hstart (q := q) (f := f)
  unfold urlsplitNetloc
  rw [if_pos (by rfl)]
  dsimp only [List.drop_succ_cons, List.drop_zero]
  rw [hcut1, hcut2]
  rw [if_neg]
  intro hcontra
  rcases hcontra with ⟨h1, _⟩ | ⟨h1, _⟩
  · rw [hasChar_eq_false
      (fun x hx => compOk_ne_lbracket (authOk_comp (haall x hx)))] at h1
    cases h1
  · rw [hasChar_eq_false
      (fun x hx => compOk_ne_rbracket (authOk_comp (haall x hx)))] at h1
    cases h1

theorem urlsplitNetloc_no {u : Str} (h : ¬ u.take 2 = pstr "//") :
    urlsplitNetloc u = .ok ([], u) := by
  unfold urlsplitNetloc
  rw [if_neg h]
theorem mem_if_str {x : Char} {c : Prop} [Decidable c] {y z : Str}
    (h : x ∈ (if c then y else z)) : x ∈ y ∨ x ∈ z := by
  by_cases hc : c
  · rw [if_pos hc] at h
    exact Or.inl h
  · rw [if_neg hc] at h
    exact Or.inr h

theorem url2_not_dslash {p q f : Str} (hdp : ¬ p.take 2 = pstr "//") :
    ¬ ((p ++ ((if q ≠ [] then '?' :: q else []) ++
        (if f ≠ [] then '#' :: f else []))).take 2 = pstr "//") := by
  rcases p with _ | ⟨c1, _ | ⟨c2, pr⟩⟩ <;>
    by_cases hqE : q = [] <;> by_cases hfE : f = [] <;>
    simp_all [pstr, List.take]

theorem pyUrlsplit_safe {s a p q f : Str}
    (hne : s ≠ []) (hsc : s.all schemeOkChar = true)
    (hac : a.all authOkChar = true)
    (hpc : p.all compOkChar = true) (hqc : q.all compOkChar = true)
    (hfc : f.all compOkChar = true)
    (hap : a ≠ [] → p ≠ [] → p.take 1 = pstr "/")
    (hdd : p.take 2 = pstr "//" → a ≠ [])
    (hfile : s = pstr "file" → p ≠ [] → p.take 1 = pstr "/") :
    pyUrlsplit (s ++ ':' :: ((if a ≠ [] ∨ s = pstr "file" then pstr "//" else []) ++
        (a ++ (p ++ ((if q ≠ [] then '?' :: q else []) ++
          (if f ≠ [] then '#' :: f else [])))))) = .ok (s, a, p, q, f) := by
  have hsall : ∀ x ∈ s, schemeOkChar x = true := by simpa [List.all_eq_true] using hsc
  have haall : ∀ x ∈ a, authOkChar x = true := by simpa [List.all_eq_true] using hac
  have hpall : ∀ x ∈ p, compOkChar x = true := by simpa [List.all_eq_true] using hpc
  have hqall : ∀ x ∈ q, compOkChar x = true := by simpa [List.all_eq_true] using hqc
  have hfall : ∀ x ∈ f, compOkChar x = true := by simpa [List.all_eq_true] using hfc
  have hSdecomp : ∀ x ∈ (s ++ ':' :: ((if a ≠ [] ∨ s = pstr "file" then pstr "//" else []) ++
      (a ++ (p ++ ((if q ≠ [] then '?' :: q else []) ++
        (if f ≠ [] then '#' :: f else [])))))),
      compOkChar x = true ∨ x = ':' ∨ x = '/' ∨ x = '?' ∨ x = '#' := by
    intro x hx
    rcases List.mem_append.mp hx with h | h
    · exact Or.inl (schemeOk_comp (hsall x h))
    · rcases List.mem_cons.mp h with h | h
      · exact Or.inr (Or.inl h)
      · rcases List.mem_append.mp h with h | h
        · rcases mem_if_str h with h | h
          · have hxs : x = '/' := by
              rcases List.mem_cons.mp h with h | h
              · exact h
              · simpa using h
            exact Or.inr (Or.inr (Or.inl hxs))
          · simp at h
        · rcases List.mem_append.mp h with h | h
          · exact Or.inl (authOk_comp (haall x h))
          · rcases List.mem_append.mp h with h | h
            · exact Or.inl (hpall x h)
            · rcases List.mem_append.mp h with h | h
              · rcases mem_if_str h with h | h
                · rcases List.mem_cons.mp h with h | h
                  · exact Or.inr (Or.inr (Or.inr (Or.inl h)))
                  · exact Or.inl (hqall x h)
                · simp at h
              · rcases mem_if_str h with h | h
                · rcases List.mem_cons.mp h with h | h
                  · exact Or.inr (Or.inr (Or.inr (Or.inr h)))
                  · exact Or.inl (hfall x h)
                · simp at h
  have hclean : removeUnsafe (lstripC0Space (s ++ ':' ::
      ((if a ≠ [] ∨ s = pstr "file" then pstr "//" else []) ++
        (a ++ (p ++ ((if q ≠ [] then '?' :: q else []) ++
          (if f ≠ [] then '#' :: f else []))))))) =
      s ++ ':' :: ((if a ≠ [] ∨ s = pstr "file" then pstr "//" else []) ++
        (a ++ (p ++ ((if q ≠ [] then '?' :: q else []) ++
          (if f ≠ [] then '#' :: f else []))))) := by
    have h1 : ∀ x ∈ (s ++ ':' :: ((if a ≠ [] ∨ s = pstr "file" then pstr "//" else []) ++
        (a ++ (p ++ ((if q ≠ [] then '?' :: q else []) ++
          (if f ≠ [] then '#' :: f else [])))))), isC0OrSpace x = false := by
      intro x hx
      rcases hSdecomp x hx with h | h | h | h | h
      · have h32 := compOk_gt32 h
        simp only [isC0OrSpace, decide_eq_false_iff_not]
        omega
      all_goals subst h
      all_goals decide
    have h2 : ∀ x ∈ (s ++ ':' :: ((if a ≠ [] ∨ s = pstr "file" then pstr "//" else []) ++
        (a ++ (p ++ ((if q ≠ [] then '?' :: q else []) ++
          (if f ≠ [] then '#' :: f else [])))))),
        (!(x = '\t' || x = '\r' || x = '\n') : Bool) = true := by
      intro x hx
      rcases hSdecomp x hx with h | h | h | h | h
      · have h32 := compOk_gt32 h
        have hx1 : x ≠ '\t' := ne_of_toNat_ne (by
          rw [show ('\t').toNat = 9 from rfl]
          omega)
        have hx2 : x ≠ '\r' := ne_of_toNat_ne (by
          rw [show ('\r').toNat = 13 from rfl]
          omega)
        have hx3 : x ≠ '\n' := ne_of_toNat_ne (by
          rw [show ('\n').toNat = 10 from rfl]
          omega)
        simp [hx1, hx2, hx3]
      all_goals subst h
      all_goals decide
    unfold lstripC0Space removeUnsafe
    rw [dropWhile_eq_self h1]
    exact filter_eq_self h2
  have h3 := fragquery_split (p := p) (q := q) (f := f) hpc hqc hfc
  dsimp only at h3
  simp only [Prod.mk.injEq] at h3
  obtain ⟨h31, h32, h33⟩ := h3
  unfold pyUrlsplit
  rw [hclean]
  dsimp only
  rw [urlsplitScheme_eval hne hsc]
  dsimp only
  by_cases hsep : a ≠ [] ∨ s = pstr "file"
  · rw [if_pos hsep]
    have hstart : p ≠ [] → p.take 1 = pstr "/" := by
      intro hp
      by_cases haE : a = []
      · rcases hsep with h | h
        · exact absurd haE h
        · exact hfile h hp
      · exact hap haE hp
    have hshape : pstr "//" ++ (a ++ (p ++ ((if q ≠ [] then '?' :: q else []) ++
        (if f ≠ [] then '#' :: f else [])))) =
        '/' :: '/' :: (a ++ (p ++ ((if q ≠ [] then '?' :: q else []) ++
        (if f ≠ [] then '#' :: f else [])))) := rfl
    rw [hshape, urlsplitNetloc_yes hac hstart]
    dsimp only
    rw [h31, h32, h33]
  · rw [if_neg hsep]
    have haE : a = [] := by
      by_contra haNE
      exact hsep (Or.inl haNE)
    subst haE
    have hdp : ¬ p.take 2 = pstr "//" := by
      intro hc
      exact hsep (Or.inl (hdd hc))
    have hshape : ([] : Str) ++ ([] ++ (p ++ ((if q ≠ [] then '?' :: q else []) ++
        (if f ≠ [] then '#' :: f else [])))) =
        p ++ ((if q ≠ [] then '?' :: q else []) ++
        (if f ≠ [] then '#' :: f else [])) := rfl
    rw [hshape, urlsplitNetloc_no (url2_not_dslash hdp)]
    dsimp only
    rw [h31, h32, h33]
theorem schemeMatch_of_ok {s : Str} (hne : s ≠ []) (hsc : s.all schemeOkChar = true) :
    schemeMatch s = true := by
  cases s with
  | nil => exact absurd rfl hne
  | cons c0 s' =>
    simp only [List.all_cons, Bool.and_eq_true] at hsc
    simp only [schemeMatch, Bool.and_eq_true]
    refine ⟨schemeOk_alpha hsc.1, ?_⟩
    simp only [List.all_eq_true] at hsc ⊢
    exact fun x hx => schemeOk_urlSchemeChar (hsc.2 x hx)

theorem create_safe {s a p q f : Str} (hne : s ≠ []) (hsc : s.all schemeOkChar = true)
    (hap : a ≠ [] → p ≠ [] → p.take 1 = pstr "/")
    (hdd : p.take 2 = pstr "//" → a ≠ [])
    (hsp : isSpecialScheme (some s) → p.take 1 = pstr "/") :
    Uri.create (some s) (some a) (some p) (some q) (some f) =
      .ok ⟨some s, some a, some p, some q, some f⟩ := by
  have hnew : uriNew (some s) (some a) (some p) (some q) (some f) =
      .ok ⟨some s, some a, some p, some q, some f⟩ := by
    unfold uriNew
    dsimp only
    rw [if_neg (by simp [schemeMatch_of_ok hne hsc])]
    rw [if_neg ?c2, if_neg ?c3]
    case c2 =>
      simp only [Bool.and_eq_true, Bool.not_eq_eq_eq_not, Bool.not_true,
        decide_eq_false_iff_not, pyVal, Option.getD]
      rintro ⟨⟨hta, htp⟩, hne1⟩
      have hanil : a ≠ [] := by
        intro hc
        subst hc
        simp [truthy] at hta
      have hpnil : p ≠ [] := by
        intro hc
        subst hc
        simp [truthy] at htp
      exact hne1 (hap hanil hpnil)
    case c3 =>
      simp only [Bool.and_eq_true, Bool.not_eq_true', decide_eq_true_eq, pyVal, Option.getD]
      rintro ⟨⟨_, htake⟩, hfa⟩
      have := hdd htake
      rw [show truthy (some a) = true by
        simp [truthy, List.isEmpty_iff, this]] at hfa
      cases hfa
  unfold Uri.create
  split_ifs with hspec
  · dsimp only
    rw [if_pos (hsp hspec)]
    exact hnew
  · exact hnew

theorem urlparse_safe {s a p q f : Str}
    (hne : s ≠ []) (hsc : s.all schemeOkChar = true)
    (hac : a.all authOkChar = true)
    (hpc : p.all compOkChar = true) (hqc : q.all compOkChar = true)
    (hfc : f.all compOkChar = true)
    (hap : a ≠ [] → p ≠ [] → p.take 1 = pstr "/")
    (hdd : p.take 2 = pstr "//" → a ≠ [])
    (hfile : s = pstr "file" → p ≠ [] → p.take 1 = pstr "/") :
    urlparse (s ++ ':' :: ((if a ≠ [] ∨ s = pstr "file" then pstr "//" else []) ++
        (a ++ (p ++ ((if q ≠ [] then '?' :: q else []) ++
          (if f ≠ [] then '#' :: f else [])))))) = .ok (s, a, p, [], q, f) := by
  have hsall : ∀ x ∈ s, schemeOkChar x = true := by simpa [List.all_eq_true] using hsc
  have haall : ∀ x ∈ a, authOkChar x = true := by simpa [List.all_eq_true] using hac
  have hpall : ∀ x ∈ p, compOkChar x = true := by simpa [List.all_eq_true] using hpc
  have hqall : ∀ x ∈ q, compOkChar x = true := by simpa [List.all_eq_true] using hqc
  have hfall : ∀ x ∈ f, compOkChar x = true := by simpa [List.all_eq_true] using hfc
  have hparams : (if usesParams.contains s ∧ hasChar ';' p then pySplitparams p
      else (p, [])) = (p, []) := by
    rw [if_neg]
    rintro ⟨-, hsemi⟩
    rw [hasChar_eq_false (fun x hx => compOk_ne_semi (hpall x hx))] at hsemi
    cases hsemi
  unfold urlparse pyUrlparse
  rw [pyUrlsplit_safe hne hsc hac hpc hqc hfc hap hdd hfile]
  dsimp only [Bind.bind, Except.bind]
  rw [hparams]
  dsimp only [pure, Except.pure]
  rw [pyUnquote_id (fun x hx => compOk_ne_pct (schemeOk_comp (hsall x hx))),
    pyUnquote_id (fun x hx => compOk_ne_pct (authOk_comp (haall x hx))),
    pyUnquote_id (fun x hx => compOk_ne_pct (hpall x hx)),
    pyUnquote_id (fun x hx => compOk_ne_pct (hqall x hx)),
    pyUnquote_id (fun x hx => compOk_ne_pct (hfall x hx))]
  rfl
/-! ### Helper lemmas about `uriNew` and `Uri.create` on valid records -/

theorem uriNew_swap (os oa op oq og oq' og' : Option Str)
    (h : uriNew os oa op oq og = .ok ⟨os, oa, op, oq, og⟩) :
    uriNew os oa op oq' og' = .ok ⟨os, oa, op, oq', og'⟩ := by
  cases os with
  | none => simp [uriNew] at h
  | some s =>
    simp only [uriNew] at h ⊢
    split_ifs at h ⊢
    all_goals simp_all

theorem create_of_uriNew (os oa op oq og oq' og' : Option Str)
    (h : uriNew os oa op oq og = .ok ⟨os, oa, op, oq, og⟩)
    (hs : isSpecialScheme os → op ≠ none ∧ (pyVal op).take 1 = pstr "/") :
    Uri.create os oa op oq' og' = .ok ⟨os, oa, op, oq', og'⟩ := by
  have hsw := uriNew_swap os oa op oq og oq' og' h
  unfold Uri.create
  split_ifs with hsp
  · obtain ⟨hne, hsl⟩ := hs hsp
    cases op with
    | none => exact absurd rfl hne
    | some p =>
      simp only [pyVal, Option.getD] at hsl
      dsimp only
      simp only [hsl, if_pos]
      exact hsw
  · exact hsw

theorem uriNew_drop_authority (os oa op oq og : Option Str)
    (h : uriNew os oa op oq og = .ok ⟨os, oa, op, oq, og⟩)
    (hnp : (pyVal op).take 2 ≠ pstr "//") :
    uriNew os none op oq og = .ok ⟨os, none, op, oq, og⟩ := by
  cases os with
  | none => simp [uriNew] at h
  | some s =>
    simp only [uriNew] at h ⊢
    split_ifs at h ⊢
    all_goals simp_all [truthy]

theorem uriNew_replace_path (os oa op oq og : Option Str) (newP : Str)
    (h : uriNew os oa op oq og = .ok ⟨os, oa, op, oq, og⟩)
    (hau : truthy oa = true → newP.take 1 = pstr "/")
    (hdd : newP.take 2 = pstr "//" → truthy oa = true) :
    uriNew os oa (some newP) oq og = .ok ⟨os, oa, some newP, oq, og⟩ := by
  cases os with
  | none => simp [uriNew] at h
  | some s =>
    cases hsm : schemeMatch s with
    | false => simp [uriNew, hsm] at h
    | true =>
      simp only [uriNew]
      rw [if_neg (by simp [hsm])]
      rw [if_neg ?c2]
      rw [if_neg ?c3]
      case c2 =>
        simp only [Bool.and_eq_true, Bool.not_eq_eq_eq_not, Bool.not_true,
          decide_eq_false_iff_not, pyVal, Option.getD]
        rintro ⟨⟨hoa, -⟩, hne⟩
        exact hne (hau hoa)
      case c3 =>
        simp only [Bool.and_eq_true, Bool.not_eq_true', decide_eq_true_eq, pyVal, Option.getD]
        rintro ⟨⟨-, htake⟩, hoaf⟩
        rw [hdd htake] at hoaf
        cases hoaf
/-! ### Claims -/

/-- Claim C1, counterexample.  The round-trip `parse (as_string u) = u` fails
as stated: the Uri created from scheme `x`, authority `HOST` and path `/a`
re-parses with authority `host`, because `as_string` lower-cases the
host portion of the authority; this holds for both values of the
`encode` flag. -/
theorem c1_roundtrip_counterexample :
    (Uri.create (some (pstr "x")) (some (pstr "HOST")) (some (pstr "/a")) (some (pstr ""))
        (some (pstr "")) =
      Except.ok ⟨some (pstr "x"), some (pstr "HOST"), some (pstr "/a"), some (pstr ""),
        some (pstr "")⟩) ∧
    (Uri.parse (Uri.as_string false ⟨some (pstr "x"), some (pstr "HOST"), some (pstr "/a"),
        some (pstr ""), some (pstr "")⟩ true) =
      Except.ok ⟨some (pstr "x"), some (pstr "host"), some (pstr "/a"), some (pstr ""),
        some (pstr "")⟩) ∧
    (Uri.parse (Uri.as_string false ⟨some (pstr "x"), some (pstr "HOST"), some (pstr "/a"),
        some (pstr ""), some (pstr "")⟩ false) =
      Except.ok ⟨some (pstr "x"), some (pstr "host"), some (pstr "/a"), some (pstr ""),
        some (pstr "")⟩) ∧
    some (pstr "host") ≠ some (pstr "HOST") := by
  decide

/-- Claim C1, amended.  For components over the identity-preserving
character classes — a non-empty scheme of lower-case letters; an authority
of lower-case letters, digits, dots and hyphens (so free of `@`, `:`, `/`,
`%` and upper case); path, query and fragment over unreserved characters
and `/` — and satisfying the construction invariants (a path alongside a
non-empty authority starts with `/`, a path starting with `//` requires an
authority, and a path of the special schemes `http`, `https`, `file`
starts with `/`), `create` succeeds and `parse (as_string u encode) = u`
component-wise, on every platform and for both values of `encode`. -/
theorem c1_roundtrip_amended (w e : Bool) (s a p q f : Str)
    (hne : s ≠ []) (hsc : s.all schemeOkChar = true)
    (hac : a.all authOkChar = true)
    (hpc : p.all compOkChar = true) (hqc : q.all compOkChar = true)
    (hfc : f.all compOkChar = true)
    (hap : a ≠ [] → p ≠ [] → p.take 1 = pstr "/")
    (hdd : p.take 2 = pstr "//" → a ≠ [])
    (hsp : isSpecialScheme (some s) → p.take 1 = pstr "/") :
    Uri.create (some s) (some a) (some p) (some q) (some f) =
      .ok ⟨some s, some a, some p, some q, some f⟩ ∧
    Uri.parse (Uri.as_string w ⟨some s, some a, some p, some q, some f⟩ e) =
      .ok ⟨some s, some a, some p, some q, some f⟩ := by
  have hfile : s = pstr "file" → p ≠ [] → p.take 1 = pstr "/" := by
    intro h _
    exact hsp (Or.inr (Or.inr (by rw [h])))
  have hcreate := create_safe (q := q) (f := f) hne hsc hap hdd hsp
  refine ⟨hcreate, ?_⟩
  rw [as_string_safe w e hac hpc hqc hfc]
  unfold Uri.parse
  rw [urlparse_safe hne hsc hac hpc hqc hfc hap hdd hfile]
  dsimp only [Bind.bind, Except.bind]
  exact hcreate

/-- Claim C1, witness for the amended round-trip at the concrete Uri
`file://host/dir/file.txt?x#y`. -/
theorem c1_roundtrip_amended_witness :
    Uri.parse (Uri.as_string false ⟨some (pstr "file"), some (pstr "host"),
        some (pstr "/dir/file.txt"), some (pstr "x"), some (pstr "y")⟩ true) =
      .ok ⟨some (pstr "file"), some (pstr "host"), some (pstr "/dir/file.txt"),
        some (pstr "x"), some (pstr "y")⟩ :=
  (c1_roundtrip_amended false true (pstr "file") (pstr "host") (pstr "/dir/file.txt")
    (pstr "x") (pstr "y") (by decide) (by decide) (by decide) (by decide) (by decide)
    (by decide) (by decide) (by decide) (by decide)).2
/-- Claim C2, code-bug evaluation.  On a Windows-style platform (`IS_WIN`
true) the claim requires `fs_path` to convert forward slashes to the
native backslash separator as its final step, but the property's final
step is `path.replace("\\", "/")` — the opposite replacement, a no-op
after `_normalize_path` — so the result keeps its forward slashes: the
file Uri with path `/C:/x/y` yields `c:/x/y` containing `/` and no `\`.
The legacy `to_fs_path`, by contrast, performs the claimed conversion and
yields `c:\x\y` on the same input. -/
theorem c2_fs_path_separator_bug :
    (Uri.fs_path true ⟨some (pstr "file"), some [], some (pstr "/C:/x/y"), some [],
        some []⟩ = some (pstr "c:/x/y")) ∧
    hasChar '/' (pstr "c:/x/y") = true ∧ hasChar '\\' (pstr "c:/x/y") = false ∧
    to_fs_path true (pstr "file:///C:/x/y") = Except.ok (some (pstr "c:\\x\\y")) := by
  decide

/-- Claim C3, counterexample.  With the other components left at their
defaults the scheme is the empty string, which fails the scheme regex, so
`create(authority="host", path="/ok")` raises `InvalidUri` (`ValueError`
in the code) instead of succeeding as the claim states. -/
theorem c3_create_empty_scheme_counterexample :
    Uri.create (some (pstr "")) (some (pstr "host")) (some (pstr "/ok")) (some (pstr ""))
        (some (pstr "")) =
      Except.error (PyErr.valueError "Invalid scheme") := by
  decide

/-- Claim C3, amended.  The authority/path slash invariant holds once a
valid non-special scheme is supplied: `create(scheme="x",
authority="host", path="no-leading-slash")` raises `InvalidUri` and
`create(scheme="x", authority="host", path="/ok")` succeeds; with the
scheme left at its default empty string both calls raise `InvalidUri`
with reason `Invalid scheme` before the path is examined. -/
theorem c3_slash_invariant_amended :
    (Uri.create (some (pstr "x")) (some (pstr "host")) (some (pstr "no-leading-slash"))
        (some (pstr "")) (some (pstr "")) =
      Except.error (PyErr.valueError "Paths with an authority must start with a slash")) ∧
    (Uri.create (some (pstr "x")) (some (pstr "host")) (some (pstr "/ok")) (some (pstr ""))
        (some (pstr "")) =
      Except.ok ⟨some (pstr "x"), some (pstr "host"), some (pstr "/ok"), some (pstr ""),
        some (pstr "")⟩) ∧
    (Uri.create (some (pstr "")) (some (pstr "host")) (some (pstr "no-leading-slash"))
        (some (pstr "")) (some (pstr "")) =
      Except.error (PyErr.valueError "Invalid scheme")) := by
  decide

/-- Claim C4, code-bug evaluation.  The legacy API is claimed never to
raise, but `from_fs_path("//server")` (a UNC root with no further slash)
propagates `ValueError`: `_normalize_win_path` calls `path.index("/", 2)`,
which raises when the slash is absent — its `idx == -1` check is dead code
written for `str.find` semantics.  `to_fs_path` and `uri_scheme` likewise
propagate the `Invalid IPv6 URL` `ValueError` from `urlsplit` since they
absorb only `TypeError`/`IndexError`.  A well-formed input is included to
show the normal path of `from_fs_path`. -/
theorem c4_from_fs_path_raises :
    (from_fs_path false (pstr "//server") =
      Except.error (PyErr.valueError "substring not found")) ∧
    (from_fs_path true (pstr "//server") =
      Except.error (PyErr.valueError "substring not found")) ∧
    (from_fs_path false (pstr "//server/share") =
      Except.ok (some (pstr "file://server/share"))) ∧
    (to_fs_path false (pstr "file://[x") =
      Except.error (PyErr.valueError "Invalid IPv6 URL")) ∧
    (uri_scheme (pstr "file://[x") =
      Except.error (PyErr.valueError "Invalid IPv6 URL")) := by
  decide
/-- Claim C5, counterexample.  Passing an explicit null for a component
does not produce the empty string: `where(query=None)` yields a Uri whose
query is `None` (absent), which differs from the empty string; and
`where(scheme=None)` raises instead of removing the scheme. -/
theorem c5_where_none_counterexample :
    (Uri.where' ⟨some (pstr "file"), some [], some (pstr "/x"), some (pstr "q"),
        some (pstr "f")⟩ [("query", none)] =
      Except.ok ⟨some (pstr "file"), some [], some (pstr "/x"), none, some (pstr "f")⟩) ∧
    (none : Option Str) ≠ some (pstr "") ∧
    (Uri.where' ⟨some (pstr "file"), some [], some (pstr "/x"), some (pstr "q"),
        some (pstr "f")⟩ [("scheme", none)] =
      Except.error (PyErr.valueError "URIs must have a scheme")) := by
  decide

/-- Claim C5, amended.  For a valid Uri whose special-scheme path already
starts with `/`: replacing `query` or `fragment` by a value installs that
value and leaves the rest unchanged; passing null for them yields `None`
(absent), not the empty string; unknown keys are ignored and the Uri is
re-created unchanged; passing null for `scheme` raises `InvalidUri`;
passing null for `authority` yields an absent authority provided the path
does not begin with `//`; and passing null for `path` under an
`http`/`https`/`file` scheme raises an attribute error inside `create`'s
slash coercion. -/
theorem c5_where_amended (u : Uri) (hv : validUri u = true)
    (hs : isSpecialScheme u.scheme → u.path ≠ none ∧ (pyVal u.path).take 1 = pstr "/") :
    (∀ v, u.where' [("query", some v)] = .ok { u with query := some v }) ∧
    (u.where' [("query", none)] = .ok { u with query := none }) ∧
    (∀ v, u.where' [("fragment", some v)] = .ok { u with fragment := some v }) ∧
    (u.where' [("fragment", none)] = .ok { u with fragment := none }) ∧
    (u.where' [("bogus", some (pstr "zzz"))] = .ok u) ∧
    (u.where' [("scheme", none)] = .error (.valueError "URIs must have a scheme")) ∧
    ((pyVal u.path).take 2 ≠ pstr "//" →
      u.where' [("authority", none)] = .ok { u with authority := none }) ∧
    (isSpecialScheme u.scheme →
      u.where' [("path", none)] =
        .error (.attributeError "NoneType object has no attribute startswith")) := by
  obtain ⟨os, oa, op, oq, og⟩ := u
  have h : uriNew os oa op oq og = .ok ⟨os, oa, op, oq, og⟩ := of_decide_eq_true hv
  simp only at hs
  refine ⟨?_, ?_, ?_, ?_, ?_, ?_, ?_, ?_⟩
  · intro v
    show Uri.create os oa op (some v) og = _
    exact create_of_uriNew os oa op oq og (some v) og h hs
  · show Uri.create os oa op none og = _
    exact create_of_uriNew os oa op oq og none og h hs
  · intro v
    show Uri.create os oa op oq (some v) = _
    exact create_of_uriNew os oa op oq og oq (some v) h hs
  · show Uri.create os oa op oq none = _
    exact create_of_uriNew os oa op oq og oq none h hs
  · show Uri.create os oa op oq og = _
    exact create_of_uriNew os oa op oq og oq og h hs
  · show Uri.create none oa op oq og = _
    simp [Uri.create, isSpecialScheme, uriNew]
  · intro hnp
    show Uri.create os none op oq og = _
    have hdrop := uriNew_drop_authority os oa op oq og h hnp
    unfold Uri.create
    split_ifs with hsp
    · obtain ⟨hne, hsl⟩ := hs hsp
      cases op with
      | none => exact absurd rfl hne
      | some p =>
        simp only [pyVal, Option.getD] at hsl
        dsimp only
        simp only [hsl, if_pos]
        exact hdrop
    · exact hdrop
  · intro hsp
    show Uri.create os oa none oq og = _
    simp [Uri.create, if_pos hsp]

/-- Claim C5, witness for the amended statement at the file Uri with path
`/x`: replacing the query with null yields an absent query. -/
theorem c5_where_amended_witness :
    Uri.where' ⟨some (pstr "file"), some [], some (pstr "/x"), some (pstr "q"),
        some (pstr "f")⟩ [("query", none)] =
      Except.ok ⟨some (pstr "file"), some [], some (pstr "/x"), none, some (pstr "f")⟩ :=
  (c5_where_amended ⟨some (pstr "file"), some [], some (pstr "/x"), some (pstr "q"),
    some (pstr "f")⟩ (by decide) (by decide)).2.1
/-- Claim C6, counterexample.  Joining is not always a pure path
replacement: from the valid Uri with scheme `x`, empty authority and path
`/a`, `join("//c")` raises `InvalidUri` — POSIX `normpath` preserves the
double slash of `//c` and re-validation rejects a `//`-path without an
authority — rather than returning a Uri with the concatenated path. -/
theorem c6_join_counterexample :
    Uri.join ⟨some (pstr "x"), some [], some (pstr "/a"), some [], some []⟩ (pstr "//c") =
      Except.error
        (PyErr.valueError "Paths without an authority cannot start with two slashes") := by
  decide

/-- Claim C6, amended.  For a valid Uri: `join` on an empty (or absent)
path raises `InvalidOperation` (`ValueError`) for every segment; when the
path is non-empty and the normalized concatenation
`normpath(join(path, segment))` passes re-validation unchanged (it starts
with `/` whenever the scheme is special or an authority is present, and
starts with `//` only in the presence of an authority), `join` returns a
new Uri identical except for that normalized path; and concretely joining
`../c` onto path `/a/b` yields path `/a/c`. -/
theorem c6_join_amended (u : Uri) (seg : Str) (hv : validUri u = true) :
    (truthy u.path = false → u.join seg = .error (.valueError "This uri has no path")) ∧
    (∀ p, u.path = some p → p ≠ [] →
      (isSpecialScheme u.scheme → (posixNormpath (posixJoin p seg)).take 1 = pstr "/") →
      (truthy u.authority = true → (posixNormpath (posixJoin p seg)).take 1 = pstr "/") →
      ((posixNormpath (posixJoin p seg)).take 2 = pstr "//" → truthy u.authority = true) →
      u.join seg = .ok { u with path := some (posixNormpath (posixJoin p seg)) }) ∧
    (Uri.join ⟨some (pstr "x"), some [], some (pstr "/a/b"), some [], some []⟩ (pstr "../c") =
      .ok ⟨some (pstr "x"), some [], some (pstr "/a/c"), some [], some []⟩) := by
  obtain ⟨os, oa, op, oq, og⟩ := u
  have h : uriNew os oa op oq og = .ok ⟨os, oa, op, oq, og⟩ := of_decide_eq_true hv
  refine ⟨?_, ?_, by decide⟩
  · intro ht
    simp [Uri.join, ht]
  · intro p hp hpe hsp hau hdd
    simp only at hp hsp hau hdd
    subst hp
    have htp : truthy (some p) = true := by simp [truthy, hpe]
    unfold Uri.join
    rw [if_neg (by simp [htp])]
    show Uri.create os oa (some (posixNormpath (posixJoin (pyVal (some p)) seg))) oq og = _
    simp only [pyVal, Option.getD]
    have hrep := uriNew_replace_path os oa (some p) oq og (posixNormpath (posixJoin p seg)) h
      hau hdd
    unfold Uri.create
    split_ifs with hspec
    · dsimp only
      rw [if_pos (hsp hspec)]
      exact hrep
    · exact hrep

/-- Claim C6, witness for the amended statement: joining `../c` onto the
Uri with scheme `x` and path `/a/b` through the general branch. -/
theorem c6_join_amended_witness :
    Uri.join ⟨some (pstr "x"), some [], some (pstr "/a/b"), some [], some []⟩ (pstr "../c") =
      .ok ⟨some (pstr "x"), some [],
        some (posixNormpath (posixJoin (pstr "/a/b") (pstr "../c"))), some [], some []⟩ :=
  (c6_join_amended ⟨some (pstr "x"), some [], some (pstr "/a/b"), some [], some []⟩
    (pstr "../c") (by decide)).2.1 (pstr "/a/b") rfl (by decide) (by decide) (by decide)
    (by decide)

/-- Claim C7.  Constructing a Uri from the UNC-style path
`//server/share/file.txt` yields scheme `file`, authority `server` and
path `/share/file.txt`, on both platforms, and its `fs_path` reconstructs
`//server/share/file.txt` (with forward slashes on both platforms, since
the property's final `IS_WIN` replacement rewrites backslashes, not
forward slashes). -/
theorem c7_unc_roundtrip :
    (Uri.for_file false (pstr "//server/share/file.txt") =
      Except.ok ⟨some (pstr "file"), some (pstr "server"), some (pstr "/share/file.txt"),
        some (pstr ""), some (pstr "")⟩) ∧
    (Uri.for_file true (pstr "//server/share/file.txt") =
      Except.ok ⟨some (pstr "file"), some (pstr "server"), some (pstr "/share/file.txt"),
        some (pstr ""), some (pstr "")⟩) ∧
    (Uri.fs_path false ⟨some (pstr "file"), some (pstr "server"),
        some (pstr "/share/file.txt"), some (pstr ""), some (pstr "")⟩ =
      some (pstr "//server/share/file.txt")) ∧
    (Uri.fs_path true ⟨some (pstr "file"), some (pstr "server"),
        some (pstr "/share/file.txt"), some (pstr ""), some (pstr "")⟩ =
      some (pstr "//server/share/file.txt")) := by
  decide

/-- Claim C8.  Parsing `file:///C:/Users/x` and `file:///c:/Users/x`
yields Uris whose `fs_path` values are identical — `c:/Users/x`, with the
drive letter lower-cased — on both platforms. -/
theorem c8_drive_letter_casing :
    ((Uri.parse (pstr "file:///C:/Users/x")).map (Uri.fs_path false) =
      Except.ok (some (pstr "c:/Users/x"))) ∧
    ((Uri.parse (pstr "file:///c:/Users/x")).map (Uri.fs_path false) =
      Except.ok (some (pstr "c:/Users/x"))) ∧
    ((Uri.parse (pstr "file:///C:/Users/x")).map (Uri.fs_path true) =
      Except.ok (some (pstr "c:/Users/x"))) ∧
    ((Uri.parse (pstr "file:///c:/Users/x")).map (Uri.fs_path true) =
      Except.ok (some (pstr "c:/Users/x"))) := by
  decide

/-- Claim C9.  Purity and determinism: `as_string` with a fixed encode
flag returns identical strings on repeated calls on the same Uri, and
`fs_path` is a function of the path and authority fields together with
the platform flag alone — two Uris agreeing on those fields have equal
`fs_path`, whatever their other components. -/
theorem c9_purity (w e : Bool) (u v : Uri) (hpath : u.path = v.path)
    (hauth : u.authority = v.authority) :
    Uri.fs_path w u = Uri.fs_path w v ∧ Uri.as_string w u e = Uri.as_string w u e := by
  constructor
  · unfold Uri.fs_path
    rw [hpath, hauth]
  · rfl

/-- Claim C9, witness: two Uris sharing path `/p` and empty authority but
differing in scheme and query have the same `fs_path`. -/
theorem c9_purity_witness :
    Uri.fs_path true ⟨some (pstr "x"), some [], some (pstr "/p"), some (pstr "q1"), some []⟩ =
      Uri.fs_path true ⟨some (pstr "y"), some [], some (pstr "/p"), some (pstr "q2"),
        some []⟩ :=
  (c9_purity true true ⟨some (pstr "x"), some [], some (pstr "/p"), some (pstr "q1"), some []⟩
    ⟨some (pstr "y"), some [], some (pstr "/p"), some (pstr "q2"), some []⟩ rfl rfl).1

/-- Claim C10.  For the schemes `http`, `https` and `file`, `create`
coerces even an empty path: `create(scheme=...)` with all other components
defaulted returns a Uri whose path is `/`, never empty, and the `fs_path`
of the resulting file Uri is the string `/` on both platforms. -/
theorem c10_empty_path_coercion :
    (Uri.create (some (pstr "file")) (some []) (some []) (some []) (some []) =
      Except.ok ⟨some (pstr "file"), some [], some (pstr "/"), some [], some []⟩) ∧
    (Uri.create (some (pstr "http")) (some []) (some []) (some []) (some []) =
      Except.ok ⟨some (pstr "http"), some [], some (pstr "/"), some [], some []⟩) ∧
    (Uri.create (some (pstr "https")) (some []) (some []) (some []) (some []) =
      Except.ok ⟨some (pstr "https"), some [], some (pstr "/"), some [], some []⟩) ∧
    (Uri.fs_path false ⟨some (pstr "file"), some [], some (pstr "/"), some [], some []⟩ =
      some (pstr "/")) ∧
    (Uri.fs_path true ⟨some (pstr "file"), some [], some (pstr "/"), some [], some []⟩ =
      some (pstr "/")) := by
  decide
